import Mathlib

/-!
Shallow embedding of `brain_proxy/brain_proxy.py` (the request augmentation
and streaming-relay pipeline of the brain-proxy repository).

External collaborators (base64 decoding, content hashing, the vector stores,
the memory extractor, the upstream completion provider and text extraction)
are modelled as explicit function parameters collected in `Env`; everything
else (the normalizer `_split_files`, the ingestor `_ingest_files`, the
memory helpers `_retrieve_memories` / `_write_memories`, `_rag`, the `chat`
route and the streaming `event_stream` generator) is translated from the
Python source.
-/

deriving instance DecidableEq for Except

namespace BrainProxy

/-- `FileData` pydantic model: a named base64-encoded attachment. -/
structure FileData where
  name : String
  mime : String
  data : String
deriving DecidableEq, Repr

/-- `ContentPart` pydantic model: one part of a multi-part message content. -/
structure ContentPart where
  type : String
  text : Option String := none
  image_url : Option String := none
  file_data : Option FileData := none
deriving DecidableEq, Repr

/-- The content field of an incoming `ChatMessage`: scalar text or parts. -/
inductive MsgContent where
  | str : String → MsgContent
  | parts : List ContentPart → MsgContent
deriving DecidableEq, Repr

/-- `ChatMessage` pydantic model. -/
structure ChatMessage where
  role : String
  content : MsgContent
deriving DecidableEq, Repr

/-- A dict content part as accessed in `chat` (`p["type"]`, `p["text"]`). -/
structure PartD where
  type : String
  text : String
deriving DecidableEq, Repr

/-- A dynamically typed dict value for the `"content"` key of a normalized
message dict: the `isinstance(..., str)` checks in `_rag` and `chat`
distinguish scalar strings from anything else. -/
inductive DVal where
  | s : String → DVal
  | parts : List PartD → DVal
deriving DecidableEq, Repr

/-- A normalized message dict `{"role": ..., "content": ...}` as produced by
`_split_files` and consumed by `_rag`, `chat` and `_write_memories`. -/
structure Msg where
  role : String
  content : DVal
deriving DecidableEq, Repr

/-- `ChatRequest` pydantic model. -/
structure ChatRequest where
  model : Option String := none
  messages : List ChatMessage
  stream : Bool := false
deriving DecidableEq, Repr

/-- The configuration held by a `BrainProxy` instance (the constructor
fields that the embedded pipeline reads). -/
structure Config where
  enable_memory : Bool
  mem_top_k : Nat
  default_model : String
  storage_dir : String
  max_upload_bytes : Nat
deriving DecidableEq, Repr

/-- The inner loop of `_split_files` over `msg.content` when the content is
a list of parts: collects the `text` of `"text"` parts (missing text
becomes `""`), and appends to the file list every non-text part carrying
`file_data` whose payload decodes and is within the size ceiling; a decode
failure or the oversize `ValueError` is caught and the file skipped.
`decode` models `base64.b64decode` (`none` = raised exception). -/
def partsSplit (cfg : Config) (decode : String → Option (List Nat)) :
    List ContentPart → List String × List FileData
  | [] => ([], [])
  | p :: ps =>
    let rest := partsSplit cfg decode ps
    if p.type = "text" then
      (p.text.getD "" :: rest.1, rest.2)
    else
      match p.file_data with
      | some fd =>
        match decode fd.data with
        | some bytes =>
          if bytes.length > cfg.max_upload_bytes then rest
          else (rest.1, fd :: rest.2)
        | none => rest
      | none => rest

/-- `BrainProxy._split_files`: returns the messages with file data removed
(multi-part turns joined into one text turn, turns with no text parts
dropped), plus the list of detached file data. -/
def splitFiles (cfg : Config) (decode : String → Option (List Nat)) :
    List ChatMessage → List Msg × List FileData
  | [] => ([], [])
  | m :: ms =>
    let rest := splitFiles cfg decode ms
    match m.content with
    | .str s => (⟨m.role, .s s⟩ :: rest.1, rest.2)
    | .parts ps =>
      let tf := partsSplit cfg decode ps
      (if tf.1.isEmpty then rest.1
       else ⟨m.role, .s (String.intercalate "\n" tf.1)⟩ :: rest.1,
       tf.2 ++ rest.2)

/-- The text contents contributed by a part list: the `text` field of every
`"text"` part, in order (missing text as `""`). -/
def textsOf (ps : List ContentPart) : List String :=
  ps.filterMap fun p => if p.type = "text" then some (p.text.getD "") else none

/-- The files detached from a part list: every non-text part's `file_data`
whose payload decodes to at most the configured ceiling. -/
def filesOf (cfg : Config) (decode : String → Option (List Nat))
    (ps : List ContentPart) : List FileData :=
  ps.filterMap fun p =>
    if p.type = "text" then none
    else
      p.file_data.bind fun fd =>
        (decode fd.data).bind fun bytes =>
          if bytes.length > cfg.max_upload_bytes then none else some fd

/-- The normalized turn emitted for one incoming message, if any. -/
def normMsg (m : ChatMessage) : Option Msg :=
  match m.content with
  | .str s => some ⟨m.role, .s s⟩
  | .parts ps =>
    if (textsOf ps).isEmpty then none
    else some ⟨m.role, .s (String.intercalate "\n" (textsOf ps))⟩

/-- The files detached from one incoming message. -/
def filesOfMsg (cfg : Config) (decode : String → Option (List Nat))
    (m : ChatMessage) : List FileData :=
  match m.content with
  | .str _ => []
  | .parts ps => filesOf cfg decode ps

/-- A stored document (`langchain` `Document` with a `name` metadata tag). -/
structure Doc where
  page_content : String
  name : String
deriving DecidableEq, Repr

/-- Result of the pluggable memory-extraction override `manager_fn`:
a list of ready memories, a replacement extractor, or nothing. -/
inductive MFnRet where
  | memories : List String → MFnRet
  | manager : (List Msg → Except String (List String)) → MFnRet
  | nothing : MFnRet

/-- Python truthiness of the override's return value
(`if not memories_or_manager: return`). -/
def MFnRet.isFalsy : MFnRet → Bool
  | .memories ms => ms.isEmpty
  | .manager _ => false
  | .nothing => true

/-- A non-streaming provider response (the fields `chat` reads from the
`litellm` response object). -/
structure Resp where
  dump : String
  assistantContent : String
  usage : Option Nat
deriving DecidableEq, Repr

/-- One streaming chunk: its serialized payload and
`payload["choices"][0].get("delta", {}).get("content", "")`
(`none` models both a missing key and an explicit `null`). -/
structure Chunk where
  payload : String
  deltaContent : Option String
deriving DecidableEq, Repr

/-- The external collaborators of the pipeline, as injectable functions:
`decode` is `base64.b64decode` (`none` = raised exception), `sha` the
content fingerprint (`hashlib.sha256(...).hexdigest()`), `extract_text`
the injectable text extractor (`.error` = raised exception), `memSearch` /
`ragSearch` the tenant's memory and document `similarity_search`,
`respond` the buffered provider call, `chunks` the streaming provider's
chunk sequence, `managerFn` the optional extraction override,
`cachedExtractor` the cached LangMem extractor (`.error` = raised
exception), `store` memory persistence (`.error` = raised exception) and
`hasUsage` whether a usage hook is configured. -/
structure Env where
  decode : String → Option (List Nat)
  sha : List Nat → String
  extract_text : String → String → Except String String
  memSearch : String → Nat → List String
  ragSearch : String → Nat → List String
  respond : List Msg → String → Resp
  chunks : List Chunk
  managerFn : Option (List Msg → MFnRet)
  cachedExtractor : List Msg → Except String (List String)
  store : List String → Except String Unit
  hasUsage : Bool

/-- `BrainProxy._retrieve_memories`: empty when memory is disabled,
otherwise the newline-join of the top-`mem_top_k` memory search hits. -/
def retrieveMemories (cfg : Config) (env : Env) (user_text : String) : String :=
  if !cfg.enable_memory then ""
  else String.intercalate "\n" (env.memSearch user_text cfg.mem_top_k)

/-- The tail of `_write_memories` shared by all branches:
`if not memories: memories = await manager(conversation)`,
`if not memories: return`, then `store` inside `try/except`.
Result: `.error` when an uncaught exception propagates, `.ok none` when no
store was attempted, `.ok (some (ms, ok))` when `store ms` was attempted
and succeeded (`ok = true`) or raised and was caught (`ok = false`). -/
def finishWrite (manager : List Msg → Except String (List String))
    (store : List String → Except String Unit)
    (conv : List Msg) (memories : List String) :
    Except String (Option (List String × Bool)) :=
  match (if memories.isEmpty then manager conv else .ok memories) with
  | .error e => .error e
  | .ok ms =>
    if ms.isEmpty then .ok none
    else
      match store ms with
      | .ok _ => .ok (some (ms, true))
      | .error _ => .ok (some (ms, false))

/-- `BrainProxy._write_memories` over the full exchange `conv`. -/
def writeMemories (cfg : Config) (managerFn : Option (List Msg → MFnRet))
    (cached : List Msg → Except String (List String))
    (store : List String → Except String Unit)
    (conv : List Msg) : Except String (Option (List String × Bool)) :=
  if !cfg.enable_memory then .ok none
  else
    match managerFn with
    | some f =>
      let r := f conv
      if r.isFalsy then .ok none
      else
        match r with
        | .manager g => finishWrite g store conv []
        | .memories ms => finishWrite cached store conv ms
        | .nothing => .ok none
    | none => finishWrite cached store conv []

/-- Sanitize a file name as `_ingest_files` does: `name.replace(" ", "_")`,
i.e. every space character becomes an underscore. -/
def sanitize (name : String) : String :=
  String.mk (name.toList.map fun c => if c = ' ' then '_' else c)

/-- Python `str.strip()`: drop leading and trailing whitespace. -/
def pyStrip (s : String) : String :=
  String.mk (((s.toList.dropWhile Char.isWhitespace).reverse.dropWhile
    Char.isWhitespace).reverse)

/-- The tenant-namespaced storage path of `_ingest_files`:
`f"{self.storage_dir}/{tenant}_{_sha(data)[:8]}_{name}"`. -/
def ingestPath (cfg : Config) (env : Env) (tenant : String)
    (data : List Nat) (name : String) : String :=
  cfg.storage_dir ++ "/" ++ tenant ++ "_" ++ (env.sha data).take 8 ++ "_" ++ name

/-- The body of the per-file `try` block of `_ingest_files`: decode, write
the raw bytes at the content-keyed path, extract text, and produce a
document when the stripped text is non-empty. Exceptions are caught by the
surrounding `except`, so the result is the list of performed writes (path,
bytes) plus the list of produced documents. Note that `path.write_bytes`
runs before `extract_text`, so an extraction failure still leaves the
bytes written. -/
def ingestFile (cfg : Config) (env : Env) (tenant : String) (file : FileData) :
    List (String × List Nat) × List Doc :=
  match env.decode file.data with
  | none => ([], [])
  | some data =>
    let name := sanitize file.name
    let path := ingestPath cfg env tenant data name
    match env.extract_text path file.mime with
    | .error _ => ([(path, data)], [])
    | .ok text =>
      if (pyStrip text).isEmpty then ([(path, data)], [])
      else ([(path, data)], [⟨text, file.name⟩])

/-- `BrainProxy._ingest_files`: processes each file independently, in
order; returns all byte writes performed and the batch of documents added
to the tenant's retrieval index at the end. -/
def ingestFiles (cfg : Config) (env : Env) (files : List FileData)
    (tenant : String) : List (String × List Nat) × List Doc :=
  match files with
  | [] => ([], [])
  | f :: fs =>
    let first := ingestFile cfg env tenant f
    let rest := ingestFiles cfg env fs tenant
    (first.1 ++ rest.1, first.2 ++ rest.2)

/-- Replay a list of byte writes over a file-system state (later writes
overwrite earlier ones at the same path). -/
def applyWrites (s : String → Option (List Nat)) :
    List (String × List Nat) → String → Option (List Nat)
  | [], q => s q
  | (p, d) :: ws, q => applyWrites (fun q => if q = p then some d else s q) ws q

/-- `BrainProxy._rag`: query = last message's content when scalar text
(else `""`); on a non-empty query with non-empty search results, splice a
synthetic system turn with the joined context immediately before the last
turn. Also returns the search effect performed, if any. -/
def ragStep (env : Env) (msgs : List Msg) (k : Nat) :
    List (String × Nat) × List Msg :=
  match msgs.getLast? with
  | none => ([], msgs)
  | some last =>
    let query := match last.content with | .s s => s | .parts _ => ""
    if query = "" then ([], msgs)
    else
      let docs := env.ragSearch query k
      if docs.isEmpty then ([(query, k)], msgs)
      else
        ([(query, k)],
         msgs.dropLast ++
           [⟨"system", .s ("Relevant context from documents:\n\n" ++
              String.intercalate "\n\n" docs)⟩, last])

/-- The memory-query expression of `chat`: the last message's content when
scalar, else the first `"text"` part's text (`none` models the
`StopIteration` raised by `next(...)` when there is no text part). -/
def memQueryOfMsg (m : Msg) : Option String :=
  match m.content with
  | .s s => some s
  | .parts ps => ((ps.filter fun p => p.type = "text").head?).map PartD.text

/-- Errors the embedded `chat` route can raise. -/
inductive ChatErr where
  | indexError
  | stopIteration
  | memErr : String → ChatErr
deriving DecidableEq, Repr

/-- The memory-retrieval-and-injection block of `chat` (lines guarded by
`if self.enable_memory:`): computes `user_text` from the last message
(raising on an empty message list or a part list without text), retrieves
the memory block, and splices it immediately before the last turn when
non-empty. Also returns the memory search effect performed, if any. -/
def memoryStep (cfg : Config) (env : Env) (msgs : List Msg) :
    Except ChatErr (List (String × Nat) × List Msg) :=
  if cfg.enable_memory then
    match msgs.getLast? with
    | none => .error .indexError
    | some last =>
      match memQueryOfMsg last with
      | none => .error .stopIteration
      | some user_text =>
        let mem_block := retrieveMemories cfg env user_text
        let effs := [(user_text, cfg.mem_top_k)]
        if mem_block.isEmpty then .ok (effs, msgs)
        else
          .ok (effs,
            msgs.dropLast ++
              [⟨"system", .s ("Relevant memories:\n" ++ mem_block)⟩, last])
  else .ok ([], msgs)

/-- The augmentation pipeline of `chat` after normalization: the memory
block injection followed by `_rag` with its default `k = 4`. -/
def augment (cfg : Config) (env : Env) (msgs : List Msg) :
    Except ChatErr (List Msg) :=
  match memoryStep cfg env msgs with
  | .error e => .error e
  | .ok (_, m2) => .ok (ragStep env m2 4).2

/-- One action of the streaming `event_stream` generator. -/
inductive SEvent where
  | frame : String → SEvent
  | done : SEvent
  | writeMem : List Msg → SEvent
  | usage : Nat → SEvent
deriving DecidableEq, Repr

/-- The `async for chunk in upstream_iter` loop of `event_stream`:
accumulates the character count and the delta buffer and yields one frame
per chunk. -/
def streamLoop : List Chunk → Nat → List String → List SEvent × Nat × List String
  | [], tokens, buf => ([], tokens, buf)
  | c :: rest, tokens, buf =>
    let delta := c.deltaContent.getD ""
    let r := streamLoop rest (tokens + delta.length) (buf ++ [delta])
    (SEvent.frame c.payload :: r.1, r.2)

/-- The `event_stream` generator of the streaming path: all content frames,
then the terminal sentinel, then the memory write-back over
`msgs + [{"role": "assistant", "content": "".join(buf)}]`, then the usage
callback when configured. -/
def eventStream (hasUsage : Bool) (chunks : List Chunk) (msgs : List Msg) :
    List SEvent :=
  let r := streamLoop chunks 0 []
  r.1 ++ [SEvent.done,
          SEvent.writeMem (msgs ++ [⟨"assistant", .s (String.join r.2.2)⟩])] ++
    (if hasUsage then [SEvent.usage r.2.1] else [])

/-- Observable effects of the embedded `chat` route. -/
inductive Eff where
  | ingest : List FileData → Eff
  | memSearch : String → Nat → Eff
  | ragSearch : String → Nat → Eff
  | dispatch : List Msg → String → Bool → Eff
deriving DecidableEq, Repr

/-- The client-visible outcome of the embedded `chat` route. -/
inductive ChatResult where
  | json : String → ChatResult
  | stream : List SEvent → ChatResult
deriving DecidableEq, Repr

/-- The tail of the non-streaming path of `chat`: the synchronous
`_write_memories` call happens before `JSONResponse(response_data)` is
returned, so an uncaught exception from it fails the request; a caught one
leaves the serialized response untouched. -/
def relayNonStream (effs : List Eff) (dump : String)
    (w : Except String (Option (List String × Bool))) :
    List Eff × Except ChatErr ChatResult :=
  match w with
  | .error e => (effs, .error (.memErr e))
  | .ok _ => (effs, .ok (.json dump))

/-- The `chat` route handler: normalize, ingest attached files, inject the
memory block, inject the retrieval block, dispatch with the resolved model,
and relay the response (buffered, with a synchronous memory write-back
whose uncaught exceptions fail the request, or streaming). Returns the
trace of effects performed together with the outcome. -/
def chat (cfg : Config) (env : Env) (req : ChatRequest) (tenant : String) :
    List Eff × Except ChatErr ChatResult :=
  let split := splitFiles cfg env.decode req.messages
  let msgs := split.1
  let files := split.2
  let ingestEffs := if files.isEmpty then [] else [Eff.ingest files]
  match memoryStep cfg env msgs with
  | .error e => (ingestEffs, .error e)
  | .ok (memEffs, msgs2) =>
    let r := ragStep env msgs2 4
    let msgs3 := r.2
    let model := (req.model).getD cfg.default_model
    let effs := ingestEffs ++ memEffs.map (fun e => Eff.memSearch e.1 e.2) ++
      r.1.map (fun e => Eff.ragSearch e.1 e.2) ++ [Eff.dispatch msgs3 model req.stream]
    if req.stream then
      (effs, .ok (.stream (eventStream env.hasUsage env.chunks msgs3)))
    else
      let resp := env.respond msgs3 model
      let conv := msgs3 ++ [⟨"assistant", .s resp.assistantContent⟩]
      relayNonStream effs resp.dump
        (writeMemories cfg env.managerFn env.cachedExtractor env.store conv)

/-- A synthetic memory system turn, as injected by `chat`. -/
def IsMemBlock (m : Msg) : Prop :=
  m.role = "system" ∧ ∃ rest, m.content = .s ("Relevant memories:\n" ++ rest)

/-- A synthetic retrieval-context system turn, as injected by `_rag`. -/
def IsRagBlock (m : Msg) : Prop :=
  m.role = "system" ∧
    ∃ rest, m.content = .s ("Relevant context from documents:\n\n" ++ rest)

/-! Concrete test fixtures used to exercise the pipeline at explicit
inputs. -/

/-- A small concrete configuration. -/
def cfgW : Config :=
  { enable_memory := true, mem_top_k := 2, default_model := "openai/gpt-4o",
    storage_dir := "tenants", max_upload_bytes := 10 }

/-- A concrete base64 decoder stand-in: decodes every character to its
code point. -/
def decodeW : String → Option (List Nat) := fun s => some (s.toList.map Char.toNat)

/-- A concrete environment with non-empty memory and document search
results. -/
def envW : Env :=
  { decode := decodeW
    sha := fun _ => "abcdef1234567890"
    extract_text := fun _ _ => .ok "extracted text"
    memSearch := fun _ _ => ["remembered fact"]
    ragSearch := fun _ _ => ["doc context"]
    respond := fun _ _ => ⟨"RESPONSE_JSON", "hello there", some 5⟩
    chunks := [⟨"p1", some "He"⟩, ⟨"p2", none⟩, ⟨"p3", some "llo"⟩]
    managerFn := none
    cachedExtractor := fun _ => .ok ["memory one"]
    store := fun _ => .ok ()
    hasUsage := true }

/-- Like `envW` but with empty memory and document search results. -/
def envQuiet : Env :=
  { envW with memSearch := fun _ _ => [], ragSearch := fun _ _ => [] }

/-- Like `envQuiet` but whose cached memory extractor raises. -/
def envBoom : Env :=
  { envQuiet with cachedExtractor := fun _ => .error "boom" }

/-- Like `envW` but whose text extractor raises. -/
def envFailExtract : Env :=
  { envW with extract_text := fun _ _ => .error "parsefail" }

/-- A concrete attached file. -/
def fX : FileData := ⟨"a b.txt", "text/plain", "zz"⟩

/-- A concrete non-streaming request with one plain user turn. -/
def reqHi : ChatRequest := ⟨none, [⟨"user", .str "hi"⟩], false⟩

/-! Helper lemmas. -/

theorem partsSplit_eq (cfg : Config) (decode : String → Option (List Nat))
    (ps : List ContentPart) :
    partsSplit cfg decode ps = (textsOf ps, filesOf cfg decode ps) := by
  induction ps with
  | nil => rfl
  | cons p ps ih =>
    simp only [partsSplit, ih, textsOf, filesOf, List.filterMap_cons]
    by_cases ht : p.type = "text"
    · simp [ht]
    · simp only [if_neg ht]
      cases hfd : p.file_data with
      | none => simp
      | some fd =>
        cases hdec : decode fd.data with
        | none => simp [hdec]
        | some bytes =>
          by_cases hb : bytes.length > cfg.max_upload_bytes
          · simp [hdec, hb]
          · simp [hdec, hb]

theorem splitFiles_eq (cfg : Config) (decode : String → Option (List Nat))
    (ms : List ChatMessage) :
    splitFiles cfg decode ms =
      (ms.filterMap normMsg, ms.flatMap (filesOfMsg cfg decode)) := by
  induction ms with
  | nil => rfl
  | cons m ms ih =>
    simp only [splitFiles, ih, List.filterMap_cons, List.flatMap_cons]
    cases hc : m.content with
    | str s => simp [normMsg, filesOfMsg, hc]
    | parts ps =>
      simp only [normMsg, filesOfMsg, hc, partsSplit_eq]
      by_cases he : (textsOf ps).isEmpty
      · simp [he, List.isEmpty_iff.mp he]
      · simp [he]

theorem getLast?_decomp {α : Type _} :
    ∀ (l : List α) (a : α), l.getLast? = some a → l = l.dropLast ++ [a]
  | [], a, h => by simp at h
  | [x], a, h => by
    simp only [List.getLast?_singleton, Option.some.injEq] at h
    simp [h]
  | x :: y :: ys, a, h => by
    have h' : (y :: ys).getLast? = some a := by
      rwa [List.getLast?_cons_cons] at h
    have ih := getLast?_decomp (y :: ys) a h'
    calc x :: y :: ys = x :: ((y :: ys).dropLast ++ [a]) := by rw [← ih]
    _ = (x :: y :: ys).dropLast ++ [a] := by simp [List.dropLast]

theorem getLast?_append_singleton {α : Type _} (l : List α) (a : α) :
    (l ++ [a]).getLast? = some a := by
  induction l with
  | nil => rfl
  | cons x xs ih =>
    cases xs with
    | nil => rfl
    | cons y ys => simpa [List.getLast?_cons_cons] using ih

theorem streamLoop_eq :
    ∀ (chunks : List Chunk) (tokens : Nat) (buf : List String),
      streamLoop chunks tokens buf =
        (chunks.map fun c => SEvent.frame c.payload,
         tokens + (chunks.map fun c => (c.deltaContent.getD "").length).sum,
         buf ++ chunks.map fun c => c.deltaContent.getD "")
  | [], tokens, buf => by simp [streamLoop]
  | c :: rest, tokens, buf => by
    simp [streamLoop, streamLoop_eq rest, Nat.add_assoc]

theorem ingestFile_writes (cfg : Config) (env : Env) (tenant : String)
    (f : FileData) :
    (ingestFile cfg env tenant f).1 =
      (match env.decode f.data with
       | none => []
       | some d => [(ingestPath cfg env tenant d (sanitize f.name), d)]) := by
  cases hd : env.decode f.data with
  | none => simp [ingestFile, hd]
  | some d =>
    cases hx : env.extract_text (ingestPath cfg env tenant d (sanitize f.name)) f.mime with
    | error e => simp [ingestFile, hd, hx]
    | ok text =>
      by_cases h : (pyStrip text).isEmpty <;> simp [ingestFile, hd, hx, h]

theorem ingestFiles_eq (cfg : Config) (env : Env) (tenant : String) :
    ∀ (fs : List FileData),
      ingestFiles cfg env fs tenant =
        (fs.flatMap fun g => (ingestFile cfg env tenant g).1,
         fs.flatMap fun g => (ingestFile cfg env tenant g).2)
  | [] => by simp [ingestFiles]
  | f :: fs => by
    simp [ingestFiles, ingestFiles_eq cfg env tenant fs]

/-- The error component of a `_write_memories` outcome. -/
def writeErr (r : Except String (Option (List String × Bool))) : Option String :=
  match r with
  | .error e => some e
  | .ok _ => none

theorem finishWrite_err (manager : List Msg → Except String (List String))
    (store : List String → Except String Unit) (conv : List Msg)
    (memories : List String) :
    writeErr (finishWrite manager store conv memories) =
      (match (if memories.isEmpty then manager conv else .ok memories) with
       | .error e => some e
       | .ok _ => none) := by
  unfold finishWrite
  cases h : (if memories.isEmpty then manager conv else Except.ok memories) with
  | error e => rfl
  | ok ms =>
    by_cases hm : ms.isEmpty
    · simp [hm, writeErr]
    · cases hs : store ms <;> simp [hm, hs, writeErr]

theorem writeMemories_err_store_indep (cfg : Config)
    (managerFn : Option (List Msg → MFnRet))
    (cached : List Msg → Except String (List String))
    (s1 s2 : List String → Except String Unit) (conv : List Msg) :
    writeErr (writeMemories cfg managerFn cached s1 conv) =
      writeErr (writeMemories cfg managerFn cached s2 conv) := by
  unfold writeMemories
  by_cases he : cfg.enable_memory
  · simp only [he]
    cases managerFn with
    | none => simp [finishWrite_err]
    | some f =>
      cases hr : f conv with
      | memories ms =>
        cases ms with
        | nil => simp [hr, MFnRet.isFalsy, writeErr]
        | cons m rest => simp [hr, MFnRet.isFalsy, finishWrite_err]
      | manager g => simp [hr, MFnRet.isFalsy, finishWrite_err]
      | nothing => simp [hr, MFnRet.isFalsy, writeErr]
  · simp [he, writeErr]

/-! Claim theorems. -/

/-- Claim C4: a turn whose content is a sequence of parts is reduced to a
single text turn whose content is its text parts, in their original order,
joined by newlines; `file_attachment` parts are removed and appended to the
detached file list; a part turn with no text parts is dropped entirely, so
no turn is emitted for it. In general the normalizer maps each turn through
`normMsg` (one turn or none) and `filesOfMsg` (its detached files), in
order. -/
theorem c4_normalizer_reduction (cfg : Config)
    (decode : String → Option (List Nat)) (msgs : List ChatMessage)
    (role : String) (ps : List ContentPart) :
    splitFiles cfg decode msgs =
      (msgs.filterMap normMsg, msgs.flatMap (filesOfMsg cfg decode)) ∧
    splitFiles cfg decode [⟨role, .parts ps⟩] =
      ((if (textsOf ps).isEmpty then []
        else [⟨role, DVal.s (String.intercalate "\n" (textsOf ps))⟩]),
       filesOf cfg decode ps) := by
  refine ⟨splitFiles_eq cfg decode msgs, ?_⟩
  rw [splitFiles_eq]
  by_cases h : (textsOf ps).isEmpty <;> simp [normMsg, filesOfMsg, h]

/-- Claim C10: a content part whose type is not `"text"` and which carries
no `file_data` (such as an `image_url` part) contributes nothing to the
normalized turn and nothing to the detached file list: dropping it from a
part list changes neither the output of the part loop nor the output of the
whole normalizer. -/
theorem c10_non_text_part_discarded (cfg : Config)
    (decode : String → Option (List Nat)) (p : ContentPart)
    (ps1 ps2 : List ContentPart) (role : String) (ms : List ChatMessage)
    (htype : p.type ≠ "text") (hfd : p.file_data = none) :
    partsSplit cfg decode (ps1 ++ p :: ps2) = partsSplit cfg decode (ps1 ++ ps2) ∧
    splitFiles cfg decode (⟨role, .parts (ps1 ++ p :: ps2)⟩ :: ms) =
      splitFiles cfg decode (⟨role, .parts (ps1 ++ ps2)⟩ :: ms) := by
  have h1 : textsOf (ps1 ++ p :: ps2) = textsOf (ps1 ++ ps2) := by
    simp [textsOf, List.filterMap_append, List.filterMap_cons, htype]
  have h2 : filesOf cfg decode (ps1 ++ p :: ps2) = filesOf cfg decode (ps1 ++ ps2) := by
    simp [filesOf, List.filterMap_append, List.filterMap_cons, htype, hfd]
  constructor
  · rw [partsSplit_eq, partsSplit_eq, h1, h2]
  · simp [splitFiles, partsSplit_eq, h1, h2]

/-- Witness for C10 at a concrete image part next to a text part. -/
theorem c10_witness :
    partsSplit cfgW decodeW
        ([⟨"text", some "hi", none, none⟩] ++
          (⟨"image_url", none, some "http://x/y.png", none⟩ : ContentPart) :: []) =
      partsSplit cfgW decodeW ([⟨"text", some "hi", none, none⟩] ++ []) :=
  (c10_non_text_part_discarded cfgW decodeW
    ⟨"image_url", none, some "http://x/y.png", none⟩
    [⟨"text", some "hi", none, none⟩] [] "user" [] (by decide) rfl).1

/-- Claim C8: memory retrieval returns the newline-join of the top
`mem_top_k` memory search hits, and the empty string when memory is
disabled; every message the normalizer emits has scalar text content, so
inside the `chat` route the memory-query computation always takes the
scalar branch (a scalar last turn always yields a query and never an
error). -/
theorem c8_memory_retrieval (cfg : Config) (env : Env) (q : String)
    (decode : String → Option (List Nat)) (msgs : List ChatMessage) :
    retrieveMemories cfg env q =
      (if cfg.enable_memory then
        String.intercalate "\n" (env.memSearch q cfg.mem_top_k) else "") ∧
    ((splitFiles cfg decode msgs).1.all fun m =>
      match m.content with | .s _ => true | .parts _ => false) = true ∧
    (∀ r s, memQueryOfMsg ⟨r, .s s⟩ = some s) := by
  refine ⟨?_, ?_, fun r s => rfl⟩
  · by_cases h : cfg.enable_memory <;> simp [retrieveMemories, h]
  · rw [splitFiles_eq]
    simp only [List.all_eq_true]
    intro x hx
    rw [List.mem_filterMap] at hx
    obtain ⟨m, _, hnm⟩ := hx
    unfold normMsg at hnm
    cases hc : m.content with
    | str s =>
      rw [hc] at hnm
      simp only [Option.some.injEq] at hnm
      subst hnm
      rfl
    | parts ps =>
      rw [hc] at hnm
      by_cases he : (textsOf ps).isEmpty
      · simp [he] at hnm
      · simp only [if_neg he, Option.some.injEq] at hnm
        subst hnm
        rfl

/-- Claim C3: for every finite chunk sequence the streaming relay emits all
content frames first, then the terminal sentinel exactly once, then invokes
memory write-back exactly once with assistant content equal to the
concatenation of all deltas, then fires the usage callback when configured
with the total delta character count. -/
theorem c3_stream_relay (hasUsage : Bool) (chunks : List Chunk) (msgs : List Msg) :
    eventStream hasUsage chunks msgs =
      (chunks.map fun c => SEvent.frame c.payload) ++
      [SEvent.done,
       SEvent.writeMem (msgs ++ [⟨"assistant",
         .s (String.join (chunks.map fun c => c.deltaContent.getD ""))⟩])] ++
      (if hasUsage then
        [SEvent.usage ((chunks.map fun c => (c.deltaContent.getD "").length).sum)]
       else []) ∧
    ((eventStream hasUsage chunks msgs).countP fun e =>
      match e with | SEvent.done => true | _ => false) = 1 ∧
    ((eventStream hasUsage chunks msgs).countP fun e =>
      match e with | SEvent.writeMem _ => true | _ => false) = 1 := by
  have hmain : eventStream hasUsage chunks msgs =
      (chunks.map fun c => SEvent.frame c.payload) ++
      [SEvent.done,
       SEvent.writeMem (msgs ++ [⟨"assistant",
         .s (String.join (chunks.map fun c => c.deltaContent.getD ""))⟩])] ++
      (if hasUsage then
        [SEvent.usage ((chunks.map fun c => (c.deltaContent.getD "").length).sum)]
       else []) := by
    simp [eventStream, streamLoop_eq]
  have hframes : ∀ (p : SEvent → Bool),
      (∀ s : String, p (SEvent.frame s) = false) →
      ((chunks.map fun c => SEvent.frame c.payload).countP p) = 0 := by
    intro p hp
    rw [List.countP_eq_zero]
    intro a ha
    rw [List.mem_map] at ha
    obtain ⟨c, _, rfl⟩ := ha
    simp [hp]
  refine ⟨hmain, ?_, ?_⟩ <;> rw [hmain] <;>
    cases hasUsage <;>
      simp [List.countP_append, List.countP_cons, hframes]

theorem memoryStep_decomp (cfg : Config) (env : Env) (msgs : List Msg)
    (last : Msg) (effs : List (String × Nat)) (m2 : List Msg)
    (hl : msgs.getLast? = some last)
    (h : memoryStep cfg env msgs = .ok (effs, m2)) :
    ∃ mb : List Msg, m2 = msgs.dropLast ++ mb ++ [last] ∧ mb.length ≤ 1 ∧
      ∀ m ∈ mb, IsMemBlock m := by
  have hdecomp := getLast?_decomp msgs last hl
  by_cases he : cfg.enable_memory
  · simp only [memoryStep, he, if_true, hl] at h
    cases hq : memQueryOfMsg last with
    | none => simp [hq] at h
    | some q =>
      simp only [hq] at h
      by_cases hb : (retrieveMemories cfg env q).isEmpty
      · simp only [if_pos hb, Except.ok.injEq, Prod.mk.injEq] at h
        refine ⟨[], ?_, by simp, by simp⟩
        rw [← h.2]
        simpa using hdecomp
      · simp only [if_neg hb, Except.ok.injEq, Prod.mk.injEq] at h
        refine ⟨[⟨"system", .s ("Relevant memories:\n" ++ retrieveMemories cfg env q)⟩],
          ?_, by simp, ?_⟩
        · rw [← h.2]
          simp
        · intro m hm
          simp only [List.mem_singleton] at hm
          subst hm
          exact ⟨rfl, retrieveMemories cfg env q, rfl⟩
  · simp only [memoryStep, if_neg he, Except.ok.injEq, Prod.mk.injEq] at h
    refine ⟨[], ?_, by simp, by simp⟩
    rw [← h.2]
    simpa using hdecomp

theorem ragStep_decomp (env : Env) (msgs : List Msg) (last : Msg) (k : Nat)
    (hl : msgs.getLast? = some last) :
    ∃ rb : List Msg, (ragStep env msgs k).2 = msgs.dropLast ++ rb ++ [last] ∧
      rb.length ≤ 1 ∧ ∀ m ∈ rb, IsRagBlock m := by
  have hdecomp := getLast?_decomp msgs last hl
  have hid : msgs = msgs.dropLast ++ [] ++ [last] := by simpa using hdecomp
  unfold ragStep
  rw [hl]
  cases hc : last.content with
  | parts ps =>
    simp only [hc]
    exact ⟨[], by simpa using hid, by simp, by simp⟩
  | s s =>
    simp only [hc]
    by_cases hq : s = ""
    · simp only [if_pos hq]
      exact ⟨[], by simpa using hid, by simp, by simp⟩
    · simp only [if_neg hq]
      by_cases hd : (env.ragSearch s k).isEmpty
      · simp only [if_pos hd]
        exact ⟨[], by simpa using hid, by simp, by simp⟩
      · simp only [if_neg hd]
        refine ⟨[⟨"system", .s ("Relevant context from documents:\n\n" ++
          String.intercalate "\n\n" (env.ragSearch s k))⟩], by simp, by simp, ?_⟩
        intro m hm
        simp only [List.mem_singleton] at hm
        subst hm
        exact ⟨rfl, _, rfl⟩

/-- Claim C1: whenever the augmentation pipeline (memory injection followed
by retrieval injection) completes on a conversation, it preserves the
relative order of all original turns and differs only by at most two
synthetic system turns inserted immediately before the final turn — a
memory block and a retrieval block, the memory block first. -/
theorem c1_augmentation_order (cfg : Config) (env : Env) (msgs : List Msg)
    (last : Msg) (out : List Msg)
    (hl : msgs.getLast? = some last)
    (h : augment cfg env msgs = .ok out) :
    ∃ mb rb : List Msg,
      out = msgs.dropLast ++ mb ++ rb ++ [last] ∧
      mb.length ≤ 1 ∧ rb.length ≤ 1 ∧
      (∀ m ∈ mb, IsMemBlock m) ∧ (∀ m ∈ rb, IsRagBlock m) := by
  unfold augment at h
  cases hm : memoryStep cfg env msgs with
  | error e =>
    rw [hm] at h
    exact absurd (h : (Except.error e : Except ChatErr (List Msg)) = .ok out)
      (by simp)
  | ok pr =>
    obtain ⟨effs, m2⟩ := pr
    rw [hm] at h
    obtain ⟨mb, hm2, hlen, hblocks⟩ := memoryStep_decomp cfg env msgs last effs m2 hl hm
    have hm2last : m2.getLast? = some last := by
      rw [hm2]
      exact getLast?_append_singleton _ _
    obtain ⟨rb, hrag, hrlen, hrblocks⟩ := ragStep_decomp env m2 last 4 hm2last
    have h' : (Except.ok (ragStep env m2 4).2 : Except ChatErr (List Msg)) = .ok out := h
    have hout : out = (ragStep env m2 4).2 := by
      injection h' with h''
      exact h''.symm
    have hdrop : m2.dropLast = msgs.dropLast ++ mb := by
      rw [hm2]
      exact List.dropLast_concat
    refine ⟨mb, rb, ?_, hlen, hrlen, hblocks, hrblocks⟩
    rw [hout, hrag, hdrop]

/-- Witness for C1: a single user turn with memory and retrieval context
both available; both blocks are injected, memory first, directly before the
final turn. -/
theorem c1_witness :
    ∃ mb rb : List Msg,
      ([⟨"system", DVal.s "Relevant memories:\nremembered fact"⟩,
        ⟨"system", DVal.s "Relevant context from documents:\n\ndoc context"⟩,
        ⟨"user", DVal.s "hi"⟩] : List Msg) =
        ([⟨"user", DVal.s "hi"⟩] : List Msg).dropLast ++ mb ++ rb ++
          [⟨"user", DVal.s "hi"⟩] ∧
      mb.length ≤ 1 ∧ rb.length ≤ 1 ∧
      (∀ m ∈ mb, IsMemBlock m) ∧ (∀ m ∈ rb, IsRagBlock m) :=
  c1_augmentation_order cfgW envW [⟨"user", .s "hi"⟩] ⟨"user", .s "hi"⟩ _
    rfl (by decide)

/-- Claim C9: with memory enabled and an empty normalized message list
(e.g. every incoming turn carried only file attachments), the request
handler raises while computing the memory query — indexing the last
element of an empty list — and the only effect that can have occurred is
file ingestion: no memory search, no retrieval search, no upstream
dispatch. -/
theorem c9_empty_normalized_raises (cfg : Config) (env : Env)
    (req : ChatRequest) (tenant : String)
    (hmem : cfg.enable_memory = true)
    (hempty : (splitFiles cfg env.decode req.messages).1 = []) :
    chat cfg env req tenant =
      ((if (splitFiles cfg env.decode req.messages).2.isEmpty then []
        else [Eff.ingest (splitFiles cfg env.decode req.messages).2]),
       .error .indexError) ∧
    ∀ e ∈ (chat cfg env req tenant).1,
      (match e with | Eff.ingest _ => true | _ => false) = true := by
  have hms : memoryStep cfg env [] = .error .indexError := by
    simp [memoryStep, hmem]
  have h1 : chat cfg env req tenant =
      ((if (splitFiles cfg env.decode req.messages).2.isEmpty then []
        else [Eff.ingest (splitFiles cfg env.decode req.messages).2]),
       .error .indexError) := by
    simp only [chat, hempty, hms]
  refine ⟨h1, ?_⟩
  rw [h1]
  intro e he
  by_cases hc : (splitFiles cfg env.decode req.messages).2.isEmpty
  · rw [if_pos hc] at he
    simp at he
  · rw [if_neg hc] at he
    simp only [List.mem_singleton] at he
    subst he
    rfl

/-- Witness for C9: a request whose only turn is a lone file attachment;
the file is ingested, then the handler raises before any search or
dispatch. -/
theorem c9_witness :
    chat cfgW envW ⟨none, [⟨"user", .parts [⟨"file", none, none, some fX⟩]⟩], false⟩
        "acme" =
      ([Eff.ingest [fX]], .error .indexError) := by
  have h := (c9_empty_normalized_raises cfgW envW
    ⟨none, [⟨"user", .parts [⟨"file", none, none, some fX⟩]⟩], false⟩ "acme"
    rfl (by decide)).1
  rw [h]
  decide

theorem relayNonStream_store_indep (cfg : Config)
    (mf : Option (List Msg → MFnRet))
    (cached : List Msg → Except String (List String))
    (s1 s2 : List String → Except String Unit)
    (effs : List Eff) (dump : String) (conv : List Msg) :
    relayNonStream effs dump (writeMemories cfg mf cached s1 conv) =
      relayNonStream effs dump (writeMemories cfg mf cached s2 conv) := by
  have hw := writeMemories_err_store_indep cfg mf cached s1 s2 conv
  cases h1 : writeMemories cfg mf cached s1 conv with
  | error e =>
    cases h2 : writeMemories cfg mf cached s2 conv with
    | error e2 =>
      rw [h1, h2] at hw
      simp only [writeErr, Option.some.injEq] at hw
      subst hw
      rfl
    | ok v =>
      rw [h1, h2] at hw
      simp [writeErr] at hw
  | ok v =>
    cases h2 : writeMemories cfg mf cached s2 conv with
    | error e2 =>
      rw [h1, h2] at hw
      simp [writeErr] at hw
    | ok v2 => rfl

/-- Counterexample to claim C2 as stated: the memory write-back's
*extraction* step is not inside the `try`, so an exception raised by the
cached extractor propagates out of `_write_memories` and fails an
otherwise successful non-streaming request. `envBoom` and `envQuiet`
differ only in the cached extractor. -/
theorem c2_counterexample :
    (chat cfgW envBoom reqHi "acme").2 = .error (.memErr "boom") ∧
    envBoom.cachedExtractor [⟨"user", .s "hi"⟩] = .error "boom" ∧
    (chat cfgW envQuiet reqHi "acme").2 = .ok (.json "RESPONSE_JSON") := by
  refine ⟨by decide, by decide, by decide⟩

/-- Claim C2, amended: a failure while *persisting* extracted memories is
caught and never affects the client-visible response — the entire `chat`
outcome is invariant under replacing the memory store function
(extraction failures, by contrast, do propagate, as the counterexample
shows). -/
theorem c2_persistence_failure_nonfatal (cfg : Config) (env : Env)
    (req : ChatRequest) (tenant : String)
    (s1 s2 : List String → Except String Unit) :
    chat cfg { env with store := s1 } req tenant =
      chat cfg { env with store := s2 } req tenant := by
  have hm : ∀ m, memoryStep cfg { env with store := s1 } m =
      memoryStep cfg { env with store := s2 } m := fun _ => rfl
  have hr : ∀ m k, ragStep { env with store := s1 } m k =
      ragStep { env with store := s2 } m k := fun _ _ => rfl
  have hw : ∀ effs dump conv,
      relayNonStream effs dump (writeMemories cfg env.managerFn
        env.cachedExtractor s1 conv) =
      relayNonStream effs dump (writeMemories cfg env.managerFn
        env.cachedExtractor s2 conv) :=
    fun effs dump conv =>
      relayNonStream_store_indep cfg env.managerFn env.cachedExtractor
        s1 s2 effs dump conv
  simp only [chat]
  simp only [hm, hr, hw]

/-- Counterexample to claim C5 as stated: a text-extraction failure does
not leave the stored paths untouched — `path.write_bytes` runs before
`extract_text`, so the failed file's raw bytes are already persisted; only
the retrieval index receives nothing. -/
theorem c5_counterexample :
    envFailExtract.extract_text "tenants/acme_abcdef12_a_b.txt" "text/plain" =
      .error "parsefail" ∧
    ingestFiles cfgW envFailExtract [fX] "acme" =
      ([("tenants/acme_abcdef12_a_b.txt", [122, 122])], []) ∧
    (ingestFiles cfgW envFailExtract [fX] "acme").1 ≠ [] := by
  refine ⟨by decide, by decide, by decide⟩

/-- Claim C5, amended: per-file errors are isolated — each file is
processed independently and a failing file never aborts the rest; a
base64 decode failure contributes nothing at all, a text-extraction
failure contributes nothing to the retrieval index (though the raw bytes
are already stored), and an oversize file is dropped during normalization
without disturbing the remaining parts. -/
theorem c5_per_file_isolation (cfg : Config) (env : Env) (tenant : String)
    (fs : List FileData) (f : FileData) :
    ingestFiles cfg env fs tenant =
      (fs.flatMap fun g => (ingestFile cfg env tenant g).1,
       fs.flatMap fun g => (ingestFile cfg env tenant g).2) ∧
    (env.decode f.data = none → ingestFile cfg env tenant f = ([], [])) ∧
    (∀ data e, env.decode f.data = some data →
      env.extract_text (ingestPath cfg env tenant data (sanitize f.name))
          f.mime = .error e →
      (ingestFile cfg env tenant f).2 = []) ∧
    (∀ (decode : String → Option (List Nat)) (p : ContentPart) (fd : FileData)
       (bytes : List Nat) (ps : List ContentPart),
      p.type ≠ "text" → p.file_data = some fd → decode fd.data = some bytes →
      bytes.length > cfg.max_upload_bytes →
      partsSplit cfg decode (p :: ps) = partsSplit cfg decode ps) := by
  refine ⟨ingestFiles_eq cfg env tenant fs, ?_, ?_, ?_⟩
  · intro hd
    simp [ingestFile, hd]
  · intro data e hd hx
    simp [ingestFile, hd, hx]
  · intro decode p fd bytes ps ht hfd hdec hb
    simp [partsSplit, ht, hfd, hdec, hb]

/-- Witness for C5: the concrete failing-extraction file contributes no
document to the index. -/
theorem c5_witness : (ingestFile cfgW envFailExtract "acme" fX).2 = [] :=
  (c5_per_file_isolation cfgW envFailExtract "acme" [] fX).2.2.1 [122, 122]
    "parsefail" (by decide) (by decide)

/-- Claim C6: the storage path is a deterministic function of the tenant,
the content-hash prefix of the decoded bytes and the sanitized name, so
ingesting the same bytes under the same name twice for the same tenant
writes the same single path twice — the second write overwrites the first
(same final state, no error) and no other path is touched. -/
theorem c6_ingest_idempotent (cfg : Config) (env : Env) (tenant : String)
    (f : FileData) (data : List Nat) (s0 : String → Option (List Nat))
    (hd : env.decode f.data = some data) :
    ((ingestFiles cfg env [f, f] tenant).1.map Prod.fst).dedup =
      [ingestPath cfg env tenant data (sanitize f.name)] ∧
    applyWrites s0 (ingestFiles cfg env [f, f] tenant).1
        (ingestPath cfg env tenant data (sanitize f.name)) = some data ∧
    (∀ q, q ≠ ingestPath cfg env tenant data (sanitize f.name) →
      applyWrites s0 (ingestFiles cfg env [f, f] tenant).1 q = s0 q) := by
  have hw : (ingestFiles cfg env [f, f] tenant).1 =
      [(ingestPath cfg env tenant data (sanitize f.name), data),
       (ingestPath cfg env tenant data (sanitize f.name), data)] := by
    rw [ingestFiles_eq]
    simp [ingestFile_writes, hd]
  rw [hw]
  refine ⟨?_, ?_, ?_⟩
  · rw [List.map_cons, List.map_cons, List.map_nil,
      List.dedup_cons_of_mem (by simp)]
    simp
  · simp [applyWrites]
  · intro q hq
    simp [applyWrites, hq]

/-- Witness for C6 at a concrete file: both ingestions of `fX` target the
single path `tenants/acme_abcdef12_a_b.txt`. -/
theorem c6_witness :
    ((ingestFiles cfgW envW [fX, fX] "acme").1.map Prod.fst).dedup =
      ["tenants/acme_abcdef12_a_b.txt"] := by
  have h := (c6_ingest_idempotent cfgW envW "acme" fX [122, 122]
    (fun _ => none) (by decide)).1
  rw [h]
  decide

/-- Claim C7: with an extraction override configured it is consulted first
and exactly one of three outcomes follows — a returned (non-empty) memory
list is persisted as-is, a returned callable replaces the cached extractor
and is run over the full exchange, and a falsy return means no write at
all; without an override the cached extractor runs over the full
exchange. -/
theorem c7_override_outcomes (cfg : Config)
    (cached : List Msg → Except String (List String))
    (store : List String → Except String Unit) (conv : List Msg)
    (f : List Msg → MFnRet)
    (hmem : cfg.enable_memory = true) :
    (f conv = .nothing → writeMemories cfg (some f) cached store conv = .ok none) ∧
    (f conv = .memories [] →
      writeMemories cfg (some f) cached store conv = .ok none) ∧
    (∀ ms, ms ≠ [] → f conv = .memories ms →
      writeMemories cfg (some f) cached store conv =
        (match store ms with
         | .ok _ => .ok (some (ms, true))
         | .error _ => .ok (some (ms, false)))) ∧
    (∀ g, f conv = .manager g →
      writeMemories cfg (some f) cached store conv =
        (match g conv with
         | .error e => .error e
         | .ok ms =>
           if ms.isEmpty then .ok none
           else
             match store ms with
             | .ok _ => .ok (some (ms, true))
             | .error _ => .ok (some (ms, false)))) ∧
    (writeMemories cfg none cached store conv =
      (match cached conv with
       | .error e => .error e
       | .ok ms =>
         if ms.isEmpty then .ok none
         else
           match store ms with
           | .ok _ => .ok (some (ms, true))
           | .error _ => .ok (some (ms, false)))) := by
  refine ⟨?_, ?_, ?_, ?_, ?_⟩
  · intro h
    simp [writeMemories, hmem, h, MFnRet.isFalsy]
  · intro h
    simp [writeMemories, hmem, h, MFnRet.isFalsy]
  · intro ms hne h
    cases ms with
    | nil => exact absurd rfl hne
    | cons m rest =>
      simp [writeMemories, hmem, h, MFnRet.isFalsy, finishWrite]
  · intro g h
    simp only [writeMemories, hmem, if_true, h, MFnRet.isFalsy,
      Bool.false_eq_true, if_false, finishWrite, List.isEmpty_nil]
    cases hg : g conv with
    | error e => simp
    | ok ms => cases ms <;> simp
  · simp only [writeMemories, hmem, if_true, finishWrite, List.isEmpty_nil]
    cases hc : cached conv with
    | error e => simp
    | ok ms => cases ms <;> simp

/-- Witness for C7: a concrete override returning a ready memory list;
exactly that list is persisted. -/
theorem c7_witness :
    writeMemories cfgW (some fun _ => MFnRet.memories ["m1"])
      (fun _ => .ok ["c"]) (fun _ => .ok ()) [] = .ok (some (["m1"], true)) := by
  have h := (c7_override_outcomes cfgW (fun _ => .ok ["c"]) (fun _ => .ok ())
    [] (fun _ => MFnRet.memories ["m1"]) rfl).2.2.1 ["m1"] (by simp) rfl
  rw [h]

end BrainProxy
